import Mathlib

/-!
# In-memory user store: a shallow embedding of `main.go`

The program keeps two process-wide variables, `users : map[int]*User` and
`lastIndex : int`, and registers six HTTP handlers on them.  Here the two
variables are the fields of `Store`, every handler is a function from the store
(and the request's query, path token or decoded body) to the new store and the
state of the `http.ResponseWriter` when the handler returns.

Go's `int` is modelled by `Int`: `lastIndex` advances by one per accepted
`POST`, and the only place where the 64-bit width decides a result that a
request can reach is `strconv.Atoi`, whose range check is modelled.
-/

namespace UserStore

/-! ## Data model -/

/-- The `User` struct (JSON keys `nickname`, `email`, `Etc`). -/
structure User where
  NickName : String
  Email : String
  Etc : String
  deriving DecidableEq, Repr

/-- The `ErrorList` struct (JSON keys `errorCode`, `message`). -/
structure ErrorList where
  ErrorCode : Int
  Message : String
  deriving DecidableEq, Repr

/-- A Go `map[int]*User`, as the lookup function `users[i]` (`none`: no entry).
Every pointer stored in the map comes from a fresh `var user User`, so no two
keys alias and the pointer is modelled by the record it points to. -/
abbrev UserMap := Int → Option User

/-- The map literal `map[int]*User{}`. -/
def emptyMap : UserMap := fun _ => none

/-- The assignment `m[k] = &u`. -/
def setKey (m : UserMap) (k : Int) (u : User) : UserMap :=
  fun i => if i = k then some u else m i

/-- The builtin `delete(m, k)`. -/
def delKey (m : UserMap) (k : Int) : UserMap :=
  fun i => if i = k then none else m i

/-- The two package-level variables `users` and `lastIndex`. -/
structure Store where
  users : UserMap
  lastIndex : Int

/-- The store at program start: `users = map[int]*User{}`, `lastIndex = 1`. -/
def initStore : Store := ⟨emptyMap, 1⟩

/-! ## The response writer -/

/-- One value passed to `json.NewEncoder(writer).Encode`. -/
inductive Payload where
  | error (e : ErrorList)
  | user (u : User)
  | users (m : UserMap)

/-- The observable state of an `http.ResponseWriter`: the status line (`none`
until the header is written) and the values encoded to the body, in order. -/
structure ResponseWriter where
  status : Option Nat
  body : List Payload

/-- The writer a handler receives. -/
def newWriter : ResponseWriter := ⟨none, []⟩

/-- The call `writer.WriteHeader(code)`: the first call fixes the status, a later
one is ignored by `net/http`. -/
def ResponseWriter.WriteHeader (w : ResponseWriter) (code : Nat) : ResponseWriter :=
  match w.status with
  | none => ⟨some code, w.body⟩
  | some _ => w

/-- The call `json.NewEncoder(writer).Encode(p)`: writing to the body sends
status 200 when no header was written before. -/
def ResponseWriter.Encode (w : ResponseWriter) (p : Payload) : ResponseWriter :=
  match w.status with
  | none => ⟨some 200, w.body ++ [p]⟩
  | some c => ⟨some c, w.body ++ [p]⟩

/-! ## `strconv.Atoi` and `strconv.Itoa` (Go standard library) -/

/-- The value of a decimal digit byte, `none` for any other character. -/
def digitVal (c : Char) : Option Nat :=
  if 48 ≤ c.toNat ∧ c.toNat ≤ 57 then some (c.toNat - 48) else none

/-- The digit loop `n = n*10 + int(ch)`, failing on the first non-digit. -/
def parseDigits : List Char → Nat → Option Nat
  | [], acc => some acc
  | c :: cs, acc =>
    match digitVal c with
    | none => none
    | some d => parseDigits cs (acc * 10 + d)

/-- The digits after an optional sign, and whether the sign was `-`. -/
def splitSign : List Char → Bool × List Char
  | [] => (false, [])
  | c :: cs => if c = '-' then (true, cs) else if c = '+' then (false, cs) else (false, c :: cs)

/-- Go's `strconv.Atoi` on a 64-bit platform: an optional sign followed by at
least one decimal digit, the value within `[-2^63, 2^63 - 1]`; `none` stands for
`err != nil` (syntax or range error). -/
def Atoi (s : String) : Option Int :=
  match splitSign s.toList with
  | (_, []) => none
  | (neg, d :: ds) =>
    match parseDigits (d :: ds) 0 with
    | none => none
    | some n =>
      if neg then
        (if n ≤ 2 ^ 63 then some (-(n : Int)) else none)
      else
        (if n < 2 ^ 63 then some (n : Int) else none)

/-- Go's `strconv.Itoa`: the decimal digits, with a leading `-` below zero. -/
def Itoa (n : Int) : String :=
  match n with
  | Int.ofNat m => Nat.repr m
  | Int.negSucc m => "-" ++ Nat.repr (m + 1)

/-! ## Requests -/

/-- The query of `GET /users`: for each of `limit` and `offset`, the first
value of the parameter (`reqQuery["limit"][0]`) when the key exists.  The
guard `req.URL.Query() != nil` of line 40 always holds, since `Query` returns
a map that was made. -/
structure Query where
  limit : Option String
  offset : Option String

/-! ## `usersGetHandle` (`GET /users`) -/

/-- Lines 44-61: the `limit` parameter on the writer `w`.  The result is the
writer and the value of `limit` afterwards, or `none` when the handler
returns.  The branch for a token that is not an integer writes the error and
does not return: the handler goes on with `limit = 25`. -/
def limitQuery (w : ResponseWriter) : Option String → ResponseWriter × Option Int
  | none => (w, some 25)
  | some tok =>
    match Atoi tok with
    | none =>
      ((w.WriteHeader 400).Encode (Payload.error ⟨400, "Limit Query is not Integer."⟩), some 25)
    | some lmt =>
      if lmt > 0 ∧ lmt ≤ 25 then (w, some lmt)
      else
        ((w.WriteHeader 400).Encode
          (Payload.error ⟨400, "Limit Query value range is from 1 to 25."⟩), none)

/-- Lines 64-82: the `offset` parameter, as `limitQuery`; the bound is the
current `lastIndex`. -/
def offsetQuery (lastIndex : Int) (w : ResponseWriter) :
    Option String → ResponseWriter × Option Int
  | none => (w, some 1)
  | some tok =>
    match Atoi tok with
    | none =>
      ((w.WriteHeader 400).Encode (Payload.error ⟨400, "Offset Query is not Integer."⟩), some 1)
    | some ofs =>
      if ofs > 0 ∧ ofs < lastIndex then (w, some ofs)
      else
        ((w.WriteHeader 400).Encode
          (Payload.error ⟨400, "Offset Query value range is from ~" ++ Itoa (lastIndex - 1)⟩),
         none)

/-- Lines 86-88: the adjustment of `limit` before the scan. -/
def adjustLimit (lastIndex offset limit : Int) : Int :=
  if offset + limit - 1 > lastIndex then limit - (lastIndex - (offset + limit)) else limit

/-- Lines 93-98: `n` iterations of the loop body from index `i`, collecting in
`acc` the entries of `users` that exist. -/
def scanLoop (users : UserMap) : Nat → Int → UserMap → UserMap
  | 0, _, acc => acc
  | n + 1, i, acc =>
    scanLoop users n (i + 1)
      (match users i with
       | some u => setKey acc i u
       | none => acc)

/-- Lines 91-98: `for i := offset; i < offset + limit; i++`, which runs
`offset + limit - offset` times (not at all when that is negative). -/
def scan (users : UserMap) (offset limit : Int) : UserMap :=
  scanLoop users (offset + limit - offset).toNat offset emptyMap

/-- The handler of `GET /users`.  It never writes to the store. -/
def usersGetHandle (s : Store) (q : Query) : ResponseWriter :=
  match limitQuery newWriter q.limit with
  | (w, none) => w
  | (w, some limit) =>
    match offsetQuery s.lastIndex w q.offset with
    | (w, none) => w
    | (w, some offset) =>
      w.Encode (Payload.users (scan s.users offset (adjustLimit s.lastIndex offset limit)))

/-! ## `userPostHandle` (`POST /users`) -/

/-- The handler of `POST /users`; `user` is the decoded request body. -/
def userPostHandle (s : Store) (user : User) : Store × ResponseWriter :=
  if user.Email = "" then
    (s, (newWriter.WriteHeader 400).Encode
      (Payload.error ⟨400, "Required element(Email) is null."⟩))
  else if user.NickName = "" then
    (s, (newWriter.WriteHeader 400).Encode
      (Payload.error ⟨400, "Required element(NickName) is null."⟩))
  else
    (⟨setKey s.users s.lastIndex user, s.lastIndex + 1⟩,
     (newWriter.WriteHeader 201).Encode (Payload.user user))

/-! ## `userGetHandle` (`GET /users/:idx`) -/

/-- The handler of `GET /users/:idx`; `idx` is `param.ByName("idx")`. -/
def userGetHandle (s : Store) (idx : String) : ResponseWriter :=
  match Atoi idx with
  | none =>
    (newWriter.WriteHeader 400).Encode (Payload.error ⟨400, idx ++ "(Index) is not Integer."⟩)
  | some index =>
    match s.users index with
    | some user => newWriter.Encode (Payload.user user)
    | none =>
      (newWriter.WriteHeader 404).Encode (Payload.error ⟨404, idx ++ "(Index) is not Found."⟩)

/-! ## `userPutHandle` (`PUT /users/:idx`) -/

/-- The handler of `PUT /users/:idx`; `user` is the decoded request body. -/
def userPutHandle (s : Store) (idx : String) (user : User) : Store × ResponseWriter :=
  match Atoi idx with
  | none =>
    (s, (newWriter.WriteHeader 400).Encode
      (Payload.error ⟨400, idx ++ "(Index) is not Integer."⟩))
  | some index =>
    match s.users index with
    | some _ =>
      if user.Email = "" then
        (s, (newWriter.WriteHeader 400).Encode
          (Payload.error ⟨400, "Required element(Email) is null."⟩))
      else if user.NickName = "" then
        (s, (newWriter.WriteHeader 400).Encode
          (Payload.error ⟨400, "Required element(NickName) is null."⟩))
      else
        (⟨setKey s.users index user, s.lastIndex⟩, newWriter.Encode (Payload.user user))
    | none =>
      (s, (newWriter.WriteHeader 404).Encode
        (Payload.error ⟨404, idx ++ "(Index) is not Found."⟩))

/-! ## `userDeleteHandle` (`DELETE /users/:idx`) -/

/-- The handler of `DELETE /users/:idx`. -/
def userDeleteHandle (s : Store) (idx : String) : Store × ResponseWriter :=
  match Atoi idx with
  | none =>
    (s, (newWriter.WriteHeader 400).Encode
      (Payload.error ⟨400, idx ++ "(Index) is not Integer."⟩))
  | some index =>
    match s.users index with
    | some user => (⟨delKey s.users index, s.lastIndex⟩, newWriter.Encode (Payload.user user))
    | none =>
      (s, (newWriter.WriteHeader 404).Encode
        (Payload.error ⟨404, idx ++ "(Index) is not Found."⟩))

/-! ## `userPatchHandle` (`PATCH /users/:idx`) -/

/-- Lines 240-253: the three guarded field assignments on the stored record
`r`, with the final value of `changeCheck`. -/
def patchFields (r user : User) : User × Bool :=
  let (r1, c1) := if user.Email ≠ "" then (User.mk r.NickName user.Email r.Etc, true) else (r, false)
  let (r2, c2) :=
    if user.NickName ≠ "" then (User.mk user.NickName r1.Email r1.Etc, true) else (r1, c1)
  if user.Etc ≠ "" then (User.mk r2.NickName r2.Email user.Etc, true) else (r2, c2)

/-- The handler of `PATCH /users/:idx`; `user` is the decoded request body.
The guarded assignments of lines 240-253 act on the stored record through its
pointer before `changeCheck` is tested, so the record they leave is what the
store holds in both branches of line 256. -/
def userPatchHandle (s : Store) (idx : String) (user : User) : Store × ResponseWriter :=
  match Atoi idx with
  | none =>
    (s, (newWriter.WriteHeader 400).Encode
      (Payload.error ⟨400, idx ++ "(Index) is not Integer."⟩))
  | some index =>
    match s.users index with
    | some r =>
      match patchFields r user with
      | (r', true) => (⟨setKey s.users index r', s.lastIndex⟩, newWriter.Encode (Payload.user r'))
      | (r', false) =>
        (⟨setKey s.users index r', s.lastIndex⟩,
         (newWriter.WriteHeader 400).Encode (Payload.error ⟨400, "All element is null."⟩))
    | none =>
      (s, (newWriter.WriteHeader 404).Encode
        (Payload.error ⟨404, idx ++ "(Index) is not Found."⟩))

/-! ## The router: sequences of requests -/

/-- One request to the six routes registered in `main`. -/
inductive Request where
  | usersGet (q : Query)
  | userPost (user : User)
  | userGet (idx : String)
  | userPut (idx : String) (user : User)
  | userDelete (idx : String)
  | userPatch (idx : String) (user : User)

/-- Dispatch of one request: the store afterwards and the response. -/
def serve (s : Store) : Request → Store × ResponseWriter
  | Request.usersGet q => (s, usersGetHandle s q)
  | Request.userPost user => userPostHandle s user
  | Request.userGet idx => (s, userGetHandle s idx)
  | Request.userPut idx user => userPutHandle s idx user
  | Request.userDelete idx => userDeleteHandle s idx
  | Request.userPatch idx user => userPatchHandle s idx user

/-- The store after serving the requests `rs` in order, starting from `s`. -/
def serveAll (s : Store) : List Request → Store
  | [] => s
  | r :: rs => serveAll (serve s r).1 rs

/-- The key under which a request stores a new record: `lastIndex` at the time
of a `POST` that is accepted (answered 201), nothing for any other request. -/
def assignedId (s : Store) : Request → Option Int
  | Request.userPost user =>
    if (userPostHandle s user).2.status = some 201 then some s.lastIndex else none
  | _ => none

/-- The keys assigned, in order, while serving `rs` from `s`. -/
def assignedIds (s : Store) : List Request → List Int
  | [] => []
  | r :: rs =>
    match assignedId s r with
    | some i => i :: assignedIds (serve s r).1 rs
    | none => assignedIds (serve s r).1 rs

/-! ## The store invariant -/

/-- The invariant of the store: `lastIndex` is positive and every key of
`users` lies in `[1, lastIndex)`. -/
def Store.Inv (s : Store) : Prop :=
  1 ≤ s.lastIndex ∧ ∀ k u, s.users k = some u → 1 ≤ k ∧ k < s.lastIndex

/-- Every stored record has a non-empty `Email` and a non-empty `NickName`. -/
def Store.Required (s : Store) : Prop :=
  ∀ k u, s.users k = some u → u.Email ≠ "" ∧ u.NickName ≠ ""

theorem inv_initStore : initStore.Inv := by
  refine ⟨by simp [initStore], ?_⟩
  intro k u h
  simp [initStore, emptyMap] at h

theorem setKey_eq_some {m : UserMap} {k i : Int} {u v : User}
    (h : setKey m k u i = some v) : (i = k ∧ v = u) ∨ (i ≠ k ∧ m i = some v) := by
  unfold setKey at h
  by_cases hik : i = k
  · left
    simp [hik] at h
    exact ⟨hik, h.symm⟩
  · right
    simp [hik] at h
    exact ⟨hik, h⟩

theorem delKey_eq_some {m : UserMap} {k i : Int} {v : User}
    (h : delKey m k i = some v) : i ≠ k ∧ m i = some v := by
  unfold delKey at h
  by_cases hik : i = k
  · simp [hik] at h
  · simp [hik] at h
    exact ⟨hik, h⟩

theorem userPostHandle_lastIndex_le (s : Store) (user : User) :
    s.lastIndex ≤ (userPostHandle s user).1.lastIndex := by
  unfold userPostHandle
  split
  · exact le_refl _
  · split
    · exact le_refl _
    · simp

theorem userPutHandle_lastIndex (s : Store) (idx : String) (user : User) :
    (userPutHandle s idx user).1.lastIndex = s.lastIndex := by
  unfold userPutHandle
  split
  · rfl
  · split
    · split
      · rfl
      · split <;> rfl
    · rfl

theorem userDeleteHandle_lastIndex (s : Store) (idx : String) :
    (userDeleteHandle s idx).1.lastIndex = s.lastIndex := by
  unfold userDeleteHandle
  split
  · rfl
  · split <;> rfl

theorem userPatchHandle_lastIndex (s : Store) (idx : String) (user : User) :
    (userPatchHandle s idx user).1.lastIndex = s.lastIndex := by
  unfold userPatchHandle
  split
  · rfl
  · split
    · split <;> rfl
    · rfl

theorem serve_lastIndex_le (s : Store) (r : Request) :
    s.lastIndex ≤ (serve s r).1.lastIndex := by
  cases r with
  | usersGet q => exact le_refl _
  | userPost user => exact userPostHandle_lastIndex_le s user
  | userGet idx => exact le_refl _
  | userPut idx user => exact le_of_eq (userPutHandle_lastIndex s idx user).symm
  | userDelete idx => exact le_of_eq (userDeleteHandle_lastIndex s idx).symm
  | userPatch idx user => exact le_of_eq (userPatchHandle_lastIndex s idx user).symm

theorem inv_userPostHandle {s : Store} (h : s.Inv) (user : User) :
    (userPostHandle s user).1.Inv := by
  unfold userPostHandle
  split
  · exact h
  · split
    · exact h
    · refine ⟨by have := h.1; simp; omega, ?_⟩
      intro k u hk
      rcases setKey_eq_some hk with ⟨rfl, _⟩ | ⟨_, hm⟩
      · exact ⟨h.1, by simp⟩
      · have := h.2 k u hm
        exact ⟨this.1, by simp; omega⟩

theorem inv_userPutHandle {s : Store} (h : s.Inv) (idx : String) (user : User) :
    (userPutHandle s idx user).1.Inv := by
  unfold userPutHandle
  split
  · exact h
  · rename_i index _
    split
    · rename_i r hr
      split
      · exact h
      · split
        · exact h
        · refine ⟨h.1, ?_⟩
          intro k u hk
          rcases setKey_eq_some hk with ⟨rfl, _⟩ | ⟨_, hm⟩
          · exact h.2 _ r hr
          · exact h.2 k u hm
    · exact h

theorem inv_userDeleteHandle {s : Store} (h : s.Inv) (idx : String) :
    (userDeleteHandle s idx).1.Inv := by
  unfold userDeleteHandle
  split
  · exact h
  · split
    · refine ⟨h.1, ?_⟩
      intro k u hk
      exact h.2 k u (delKey_eq_some hk).2
    · exact h

theorem inv_userPatchHandle {s : Store} (h : s.Inv) (idx : String) (user : User) :
    (userPatchHandle s idx user).1.Inv := by
  unfold userPatchHandle
  split
  · exact h
  · split
    · rename_i r hr
      split
      all_goals
        refine ⟨h.1, ?_⟩
        intro k u hk
        rcases setKey_eq_some hk with ⟨rfl, _⟩ | ⟨_, hm⟩
        · exact h.2 _ r hr
        · exact h.2 k u hm
    · exact h

theorem inv_serve {s : Store} (h : s.Inv) (r : Request) : (serve s r).1.Inv := by
  cases r with
  | usersGet q => exact h
  | userPost user => exact inv_userPostHandle h user
  | userGet idx => exact h
  | userPut idx user => exact inv_userPutHandle h idx user
  | userDelete idx => exact inv_userDeleteHandle h idx
  | userPatch idx user => exact inv_userPatchHandle h idx user

theorem inv_serveAll {s : Store} (h : s.Inv) (rs : List Request) : (serveAll s rs).Inv := by
  induction rs generalizing s with
  | nil => exact h
  | cons r rs ih => exact ih (inv_serve h r)

/-! ## Assigned keys -/

theorem assignedId_some {s : Store} {r : Request} {i : Int} (h : assignedId s r = some i) :
    i = s.lastIndex ∧ (serve s r).1.lastIndex = s.lastIndex + 1 := by
  cases r with
  | userPost user =>
    simp only [assignedId, serve] at h ⊢
    unfold userPostHandle at h ⊢
    by_cases he : user.Email = ""
    · simp [he, newWriter, ResponseWriter.WriteHeader, ResponseWriter.Encode] at h
    · by_cases hn : user.NickName = ""
      · simp [he, hn, newWriter, ResponseWriter.WriteHeader, ResponseWriter.Encode] at h
      · simp [he, hn, newWriter, ResponseWriter.WriteHeader, ResponseWriter.Encode] at h
        simp [he, hn, h]
  | usersGet q => simp [assignedId] at h
  | userGet idx => simp [assignedId] at h
  | userPut idx user => simp [assignedId] at h
  | userDelete idx => simp [assignedId] at h
  | userPatch idx user => simp [assignedId] at h

theorem assignedIds_ge (s : Store) (rs : List Request) :
    ∀ i ∈ assignedIds s rs, s.lastIndex ≤ i := by
  induction rs generalizing s with
  | nil => intro i hi; simp [assignedIds] at hi
  | cons r rs ih =>
    intro i hi
    have hmono := serve_lastIndex_le s r
    unfold assignedIds at hi
    split at hi
    · rename_i j hj
      rcases List.mem_cons.mp hi with rfl | hi
      · exact le_of_eq (assignedId_some hj).1.symm
      · exact le_trans hmono (ih _ i hi)
    · exact le_trans hmono (ih _ i hi)

theorem assignedIds_pairwise (s : Store) (rs : List Request) :
    (assignedIds s rs).Pairwise (fun a b => a < b) := by
  induction rs generalizing s with
  | nil => simp [assignedIds]
  | cons r rs ih =>
    unfold assignedIds
    split
    · rename_i j hj
      refine List.pairwise_cons.mpr ⟨?_, ih _⟩
      intro b hb
      have h1 := assignedIds_ge _ rs b hb
      have h2 := assignedId_some hj
      omega
    · exact ih _

/-! ## The list handler -/

theorem scanLoop_apply (users : UserMap) (n : Nat) (i : Int) (acc : UserMap) (k : Int) :
    scanLoop users n i acc k =
      if i ≤ k ∧ k < i + n then (users k).orElse (fun _ => acc k) else acc k := by
  induction n generalizing i acc with
  | zero =>
    have h0 : ¬ (i ≤ k ∧ k < i + ((0 : Nat) : Int)) := by
      push_cast
      omega
    rw [scanLoop, if_neg h0]
  | succ n ih =>
    rw [scanLoop, ih]
    by_cases hki : k = i
    · subst hki
      have h1 : ¬ (k + 1 ≤ k ∧ k < k + 1 + (n : Int)) := by omega
      have h2 : k ≤ k ∧ k < k + ((n + 1 : Nat) : Int) := by
        refine ⟨le_refl _, ?_⟩
        push_cast
        omega
      rw [if_neg h1, if_pos h2]
      cases hu : users k with
      | none => simp
      | some u => simp [setKey]
    · have hacc : (match users i with
          | some u => setKey acc i u
          | none => acc) k = acc k := by
        cases users i with
        | none => rfl
        | some u => simp [setKey, hki]
      rw [hacc]
      by_cases hr : i + 1 ≤ k ∧ k < i + 1 + (n : Int)
      · have hr2 : i ≤ k ∧ k < i + ((n + 1 : Nat) : Int) := by
          push_cast
          omega
        rw [if_pos hr, if_pos hr2]
      · have hr2 : ¬ (i ≤ k ∧ k < i + ((n + 1 : Nat) : Int)) := by
          push_cast
          omega
        rw [if_neg hr, if_neg hr2]

theorem scan_apply (users : UserMap) (offset limit k : Int) :
    scan users offset limit k =
      if offset ≤ k ∧ k < offset + limit then users k else none := by
  unfold scan
  rw [scanLoop_apply]
  by_cases hr : offset ≤ k ∧ k < offset + limit
  · have hr2 : offset ≤ k ∧ k < offset + (((offset + limit - offset).toNat : Nat) : Int) := by
      omega
    rw [if_pos hr, if_pos hr2]
    cases users k <;> simp [emptyMap]
  · have hr2 : ¬ (offset ≤ k ∧ k < offset + (((offset + limit - offset).toNat : Nat) : Int)) := by
      omega
    rw [if_neg hr, if_neg hr2]
    rfl

theorem limitQuery_default (w : ResponseWriter) : limitQuery w none = (w, some 25) := rfl

theorem limitQuery_inRange (w : ResponseWriter) {tok : String} {lmt : Int}
    (hp : Atoi tok = some lmt) (h1 : 1 ≤ lmt) (h2 : lmt ≤ 25) :
    limitQuery w (some tok) = (w, some lmt) := by
  have : lmt > 0 ∧ lmt ≤ 25 := ⟨by omega, h2⟩
  simp [limitQuery, hp, this]

theorem limitQuery_outOfRange (w : ResponseWriter) {tok : String} {lmt : Int}
    (hp : Atoi tok = some lmt) (h : lmt < 1 ∨ 25 < lmt) :
    limitQuery w (some tok) =
      ((w.WriteHeader 400).Encode
        (Payload.error ⟨400, "Limit Query value range is from 1 to 25."⟩), none) := by
  have : ¬ (lmt > 0 ∧ lmt ≤ 25) := by omega
  simp [limitQuery, hp, this]

theorem offsetQuery_default (n : Int) (w : ResponseWriter) :
    offsetQuery n w none = (w, some 1) := rfl

theorem offsetQuery_inRange (n : Int) (w : ResponseWriter) {tok : String} {ofs : Int}
    (hp : Atoi tok = some ofs) (h1 : 1 ≤ ofs) (h2 : ofs < n) :
    offsetQuery n w (some tok) = (w, some ofs) := by
  have : ofs > 0 ∧ ofs < n := ⟨by omega, h2⟩
  simp [offsetQuery, hp, this]

theorem offsetQuery_outOfRange (n : Int) (w : ResponseWriter) {tok : String} {ofs : Int}
    (hp : Atoi tok = some ofs) (h : ¬ (1 ≤ ofs ∧ ofs < n)) :
    offsetQuery n w (some tok) =
      ((w.WriteHeader 400).Encode
        (Payload.error ⟨400, "Offset Query value range is from ~" ++ Itoa (n - 1)⟩), none) := by
  have : ¬ (ofs > 0 ∧ ofs < n) := by omega
  simp [offsetQuery, hp, this]

/-- On a store that satisfies the invariant, the scan over the adjusted limit
finds what the scan over the requested limit finds. -/
theorem scan_adjustLimit {s : Store} (h : s.Inv) (offset limit k : Int) :
    scan s.users offset (adjustLimit s.lastIndex offset limit) k =
      if offset ≤ k ∧ k < offset + limit then s.users k else none := by
  rw [scan_apply]
  unfold adjustLimit
  by_cases hadj : offset + limit - 1 > s.lastIndex
  · rw [if_pos hadj]
    by_cases hr : offset ≤ k ∧ k < offset + limit
    · have hr2 : offset ≤ k ∧ k < offset + (limit - (s.lastIndex - (offset + limit))) := by
        omega
      rw [if_pos hr, if_pos hr2]
    · rw [if_neg hr]
      split
      · cases hu : s.users k with
        | none => rfl
        | some u =>
          have := h.2 k u hu
          omega
      · rfl
  · rw [if_neg hadj]

/-! ## The patch assignments and writes that change nothing -/

/-- The three guarded assignments, field by field: a field of the record takes
the body's value when that value is non-empty and keeps its own otherwise, and
`changeCheck` ends true when some field of the body is non-empty. -/
theorem patchFields_eq (r user : User) :
    patchFields r user =
      (⟨if user.NickName ≠ "" then user.NickName else r.NickName,
        if user.Email ≠ "" then user.Email else r.Email,
        if user.Etc ≠ "" then user.Etc else r.Etc⟩,
       decide (user.Email ≠ "" ∨ user.NickName ≠ "" ∨ user.Etc ≠ "")) := by
  unfold patchFields
  by_cases he : user.Email = "" <;> by_cases hn : user.NickName = "" <;>
    by_cases ht : user.Etc = "" <;> simp [he, hn, ht]

theorem patchFields_unchanged {r user r' : User} (h : patchFields r user = (r', false)) :
    r' = r := by
  rw [patchFields_eq] at h
  have h1 := congrArg Prod.fst h
  have h2 := congrArg Prod.snd h
  simp only [decide_eq_false_iff_not, not_or, not_not] at h2
  obtain ⟨he, hn, ht⟩ := h2
  simp only [he, hn, ht, ne_eq, not_true_eq_false, if_false] at h1
  exact h1.symm

theorem setKey_self {m : UserMap} {k : Int} {u : User} (h : m k = some u) :
    setKey m k u = m := by
  funext i
  unfold setKey
  by_cases hik : i = k
  · rw [if_pos hik, hik, h]
  · rw [if_neg hik]

/-! ## `Atoi` reads what `Itoa` writes -/

theorem digitVal_digitChar {d : Nat} (h : d < 10) : digitVal (Nat.digitChar d) = some d := by
  interval_cases d <;> rfl

theorem digitChar_ne_sign {d : Nat} (h : d < 10) :
    Nat.digitChar d ≠ '-' ∧ Nat.digitChar d ≠ '+' := by
  interval_cases d <;> decide

theorem parseDigits_toDigitsCore (fuel : Nat) :
    ∀ (n : Nat) (ds : List Char), n < fuel →
      parseDigits (Nat.toDigitsCore 10 fuel n ds) 0 = parseDigits ds n := by
  induction fuel with
  | zero => intro n ds h; omega
  | succ fuel ih =>
    intro n ds h
    have hd : digitVal (Nat.digitChar (n % 10)) = some (n % 10) :=
      digitVal_digitChar (Nat.mod_lt n (by decide))
    unfold Nat.toDigitsCore
    by_cases hq : n / 10 = 0
    · simp only [hq, if_true]
      have hn : n % 10 = n := by omega
      simp only [parseDigits, hd]
      rw [hn]
      simp
    · simp only [hq, if_false]
      rw [ih (n / 10) _ (by omega)]
      simp only [parseDigits, hd]
      congr 1
      omega

theorem toDigitsCore_head (fuel : Nat) :
    ∀ (n : Nat) (ds : List Char), n < fuel →
      ∃ d tl, d < 10 ∧ Nat.toDigitsCore 10 fuel n ds = Nat.digitChar d :: tl := by
  induction fuel with
  | zero => intro n ds h; omega
  | succ fuel ih =>
    intro n ds h
    unfold Nat.toDigitsCore
    by_cases hq : n / 10 = 0
    · simp only [hq, if_true]
      exact ⟨n % 10, ds, Nat.mod_lt n (by decide), rfl⟩
    · simp only [hq, if_false]
      exact ih (n / 10) _ (by omega)

/-- The decimal token that `Itoa` writes for a non-negative `int` is read back
by `Atoi` as the same value. -/
theorem Atoi_Itoa {i : Int} (h0 : 0 ≤ i) (h1 : i < 2 ^ 63) : Atoi (Itoa i) = some i := by
  obtain ⟨m, rfl⟩ := Int.eq_ofNat_of_zero_le h0
  have hm : m < 2 ^ 63 := by exact_mod_cast h1
  have hl : (Itoa (m : Int)).toList = Nat.toDigits 10 m := rfl
  obtain ⟨d, tl, hd, htl⟩ := toDigitsCore_head (m + 1) m [] (Nat.lt_succ_self m)
  have hparse : parseDigits (Nat.toDigits 10 m) 0 = some m := by
    unfold Nat.toDigits
    rw [parseDigits_toDigitsCore (m + 1) m [] (Nat.lt_succ_self m)]
    rfl
  have hsplit : splitSign (Nat.toDigits 10 m) = (false, Nat.digitChar d :: tl) := by
    unfold Nat.toDigits
    rw [htl]
    simp [splitSign, (digitChar_ne_sign hd).1, (digitChar_ne_sign hd).2]
  unfold Atoi
  rw [hl, hsplit]
  have hparse2 : parseDigits (Nat.digitChar d :: tl) 0 = some m := by
    have : Nat.toDigits 10 m = Nat.digitChar d :: tl := htl
    rw [← this]
    exact hparse
  simp only [hparse2]
  have hm2 : m < 9223372036854775808 := by omega
  simp [hm2]

/-! ## Required fields of stored records -/

theorem required_initStore : initStore.Required := by
  intro k u h
  simp [initStore, emptyMap] at h

theorem required_userPostHandle {s : Store} (h : s.Required) (user : User) :
    (userPostHandle s user).1.Required := by
  unfold userPostHandle
  by_cases he : user.Email = ""
  · rw [if_pos he]
    exact h
  · by_cases hn : user.NickName = ""
    · rw [if_neg he, if_pos hn]
      exact h
    · rw [if_neg he, if_neg hn]
      intro k u hk
      rcases setKey_eq_some hk with ⟨_, rfl⟩ | ⟨_, hm⟩
      · exact ⟨he, hn⟩
      · exact h k u hm

theorem required_userPutHandle {s : Store} (h : s.Required) (idx : String) (user : User) :
    (userPutHandle s idx user).1.Required := by
  unfold userPutHandle
  split
  · exact h
  · split
    · by_cases he : user.Email = ""
      · rw [if_pos he]
        exact h
      · by_cases hn : user.NickName = ""
        · rw [if_neg he, if_pos hn]
          exact h
        · rw [if_neg he, if_neg hn]
          intro k u hk
          rcases setKey_eq_some hk with ⟨_, rfl⟩ | ⟨_, hm⟩
          · exact ⟨he, hn⟩
          · exact h k u hm
    · exact h

theorem required_userDeleteHandle {s : Store} (h : s.Required) (idx : String) :
    (userDeleteHandle s idx).1.Required := by
  unfold userDeleteHandle
  split
  · exact h
  · split
    · intro k u hk
      exact h k u (delKey_eq_some hk).2
    · exact h

theorem required_patchFields {r user r' : User} {c : Bool}
    (hr : r.Email ≠ "" ∧ r.NickName ≠ "") (h : patchFields r user = (r', c)) :
    r'.Email ≠ "" ∧ r'.NickName ≠ "" := by
  rw [patchFields_eq] at h
  have h1 := (congrArg Prod.fst h).symm
  subst h1
  constructor
  · by_cases he : user.Email = ""
    · simpa [he] using hr.1
    · simp [he]
  · by_cases hn : user.NickName = ""
    · simpa [hn] using hr.2
    · simp [hn]

theorem required_userPatchHandle {s : Store} (h : s.Required) (idx : String) (user : User) :
    (userPatchHandle s idx user).1.Required := by
  unfold userPatchHandle
  split
  · exact h
  · split
    · rename_i r hr
      split
      all_goals
        rename_i r' hpf
        intro k u hk
        rcases setKey_eq_some hk with ⟨_, rfl⟩ | ⟨_, hm⟩
        · exact required_patchFields (h _ r hr) hpf
        · exact h k u hm
    · exact h

theorem required_serve {s : Store} (h : s.Required) (r : Request) :
    (serve s r).1.Required := by
  cases r with
  | usersGet q => exact h
  | userPost user => exact required_userPostHandle h user
  | userGet idx => exact h
  | userPut idx user => exact required_userPutHandle h idx user
  | userDelete idx => exact required_userDeleteHandle h idx
  | userPatch idx user => exact required_userPatchHandle h idx user

theorem required_serveAll {s : Store} (h : s.Required) (rs : List Request) :
    (serveAll s rs).Required := by
  induction rs generalizing s with
  | nil => exact h
  | cons r rs ih => exact ih (required_serve h r)

/-! ## What each handler leaves as it was -/

theorem userPostHandle_users (s : Store) (user : User) (k : Int) :
    (userPostHandle s user).1.users k = s.users k ∨
      (k = s.lastIndex ∧ (userPostHandle s user).1.users k = some user) := by
  unfold userPostHandle
  by_cases he : user.Email = ""
  · rw [if_pos he]
    exact Or.inl rfl
  · by_cases hn : user.NickName = ""
    · rw [if_neg he, if_pos hn]
      exact Or.inl rfl
    · rw [if_neg he, if_neg hn]
      by_cases hk : k = s.lastIndex
      · exact Or.inr ⟨hk, by simp [setKey, hk]⟩
      · exact Or.inl (by simp [setKey, hk])

theorem userPutHandle_users_other (s : Store) (idx : String) (user : User) (k : Int)
    (hk : Atoi idx ≠ some k) : (userPutHandle s idx user).1.users k = s.users k := by
  unfold userPutHandle
  split
  · rfl
  · rename_i index hidx
    have hne : k ≠ index := fun h => hk (by rw [hidx, h])
    split
    · split
      · rfl
      · split
        · rfl
        · simp [setKey, hne]
    · rfl

theorem userPutHandle_isSome (s : Store) (idx : String) (user : User) (k : Int) :
    ((userPutHandle s idx user).1.users k).isSome = (s.users k).isSome := by
  unfold userPutHandle
  split
  · rfl
  · rename_i index hidx
    split
    · rename_i r hr
      split
      · rfl
      · split
        · rfl
        · by_cases hki : k = index
          · simp [setKey, hki, hr]
          · simp [setKey, hki]
    · rfl

theorem userPatchHandle_users_other (s : Store) (idx : String) (user : User) (k : Int)
    (hk : Atoi idx ≠ some k) : (userPatchHandle s idx user).1.users k = s.users k := by
  unfold userPatchHandle
  split
  · rfl
  · rename_i index hidx
    have hne : k ≠ index := fun h => hk (by rw [hidx, h])
    split
    · split <;> simp [setKey, hne]
    · rfl

theorem userPatchHandle_isSome (s : Store) (idx : String) (user : User) (k : Int) :
    ((userPatchHandle s idx user).1.users k).isSome = (s.users k).isSome := by
  unfold userPatchHandle
  split
  · rfl
  · rename_i index hidx
    split
    · rename_i r hr
      split
      all_goals
        by_cases hki : k = index
        · simp [setKey, hki, hr]
        · simp [setKey, hki]
    · rfl

theorem userDeleteHandle_users (s : Store) (idx : String) (k : Int) :
    (userDeleteHandle s idx).1.users k = s.users k ∨
      (Atoi idx = some k ∧ (userDeleteHandle s idx).1.users k = none) := by
  unfold userDeleteHandle
  split
  · exact Or.inl rfl
  · rename_i index hidx
    split
    · by_cases hki : k = index
      · exact Or.inr ⟨by rw [hidx, hki], by simp [delKey, hki]⟩
      · exact Or.inl (by simp [delKey, hki])
    · exact Or.inl rfl

theorem userDeleteHandle_users_other (s : Store) (idx : String) (k : Int)
    (hk : Atoi idx ≠ some k) : (userDeleteHandle s idx).1.users k = s.users k := by
  rcases userDeleteHandle_users s idx k with h | ⟨h, _⟩
  · exact h
  · exact absurd h hk

/-! ## Error responses leave the store as it was -/

theorem userPostHandle_error (s : Store) (user : User)
    (h : (userPostHandle s user).2.status = some 400 ∨
      (userPostHandle s user).2.status = some 404) : (userPostHandle s user).1 = s := by
  unfold userPostHandle at h ⊢
  by_cases he : user.Email = ""
  · rw [if_pos he]
  · by_cases hn : user.NickName = ""
    · rw [if_neg he, if_pos hn]
    · rw [if_neg he, if_neg hn] at h
      simp [newWriter, ResponseWriter.WriteHeader, ResponseWriter.Encode] at h

theorem userPutHandle_error (s : Store) (idx : String) (user : User)
    (h : (userPutHandle s idx user).2.status = some 400 ∨
      (userPutHandle s idx user).2.status = some 404) : (userPutHandle s idx user).1 = s := by
  unfold userPutHandle at h ⊢
  cases hA : Atoi idx with
  | none => simp only [hA]
  | some index =>
    cases hU : s.users index with
    | none => simp only [hA, hU]
    | some r =>
      simp only [hA, hU] at h ⊢
      by_cases he : user.Email = ""
      · rw [if_pos he]
      · by_cases hn : user.NickName = ""
        · rw [if_neg he, if_pos hn]
        · rw [if_neg he, if_neg hn] at h
          simp [newWriter, ResponseWriter.Encode] at h

theorem userDeleteHandle_error (s : Store) (idx : String)
    (h : (userDeleteHandle s idx).2.status = some 400 ∨
      (userDeleteHandle s idx).2.status = some 404) : (userDeleteHandle s idx).1 = s := by
  unfold userDeleteHandle at h ⊢
  cases hA : Atoi idx with
  | none => simp only [hA]
  | some index =>
    cases hU : s.users index with
    | none => simp only [hA, hU]
    | some r =>
      simp only [hA, hU] at h
      simp [newWriter, ResponseWriter.Encode] at h

theorem userPatchHandle_error (s : Store) (idx : String) (user : User)
    (h : (userPatchHandle s idx user).2.status = some 400 ∨
      (userPatchHandle s idx user).2.status = some 404) :
    (userPatchHandle s idx user).1 = s := by
  unfold userPatchHandle at h ⊢
  cases hA : Atoi idx with
  | none => simp only [hA]
  | some index =>
    cases hU : s.users index with
    | none => simp only [hA, hU]
    | some r =>
      cases hpf : patchFields r user with
      | mk r' c =>
        cases c with
        | true =>
          simp only [hA, hU, hpf] at h
          simp [newWriter, ResponseWriter.Encode] at h
        | false =>
          simp only [hA, hU, hpf]
          rw [patchFields_unchanged hpf, setKey_self hU]

/-! ## Claims -/

/-- C1: serving any sequence of requests from the initial store (empty,
`lastIndex = 1`), the keys assigned by the accepted `POST`s are strictly
increasing in the order of the calls, so no key is assigned twice, also when
records were deleted in between. -/
theorem c1_assigned_ids_strictly_increasing (rs : List Request) :
    (assignedIds initStore rs).Pairwise (fun a b => a < b) ∧
      (assignedIds initStore rs).Nodup :=
  ⟨assignedIds_pairwise initStore rs,
   (assignedIds_pairwise initStore rs).imp (fun h => ne_of_lt h)⟩

/-- C2: in every store reached from the initial one by any sequence of the six
requests, every key `k` of `users` satisfies `1 ≤ k < lastIndex`, and no
request served in any store decreases `lastIndex`. -/
theorem c2_keys_below_lastIndex (rs : List Request) :
    (∀ k, (serveAll initStore rs).users k ≠ none →
        1 ≤ k ∧ k < (serveAll initStore rs).lastIndex) ∧
      ∀ (s : Store) (r : Request), s.lastIndex ≤ (serve s r).1.lastIndex := by
  refine ⟨?_, serve_lastIndex_le⟩
  intro k hk
  cases hu : (serveAll initStore rs).users k with
  | none => exact absurd hu hk
  | some u => exact (inv_serveAll inv_initStore rs).2 k u hu

/-- C3: in every store reached from the initial one, for a limit in `1..25`
(or no limit parameter, which means 25) and an offset with
`1 ≤ offset < lastIndex` (or no offset parameter, which means 1), the list
handler answers 200 with exactly one user mapping, and that mapping is `users`
restricted to the keys `i` with `offset ≤ i < offset + limit` for the requested
limit: a key outside the range or without a record is absent, any other key
maps to its stored record. -/
theorem c3_list_is_store_restricted_to_range (rs : List Request) (q : Query)
    (limit offset : Int)
    (hl : (q.limit = none ∧ limit = 25) ∨
      (q.limit.bind Atoi = some limit ∧ 1 ≤ limit ∧ limit ≤ 25))
    (ho : (q.offset = none ∧ offset = 1) ∨
      (q.offset.bind Atoi = some offset ∧ 1 ≤ offset ∧
        offset < (serveAll initStore rs).lastIndex)) :
    ∃ m, usersGetHandle (serveAll initStore rs) q = ⟨some 200, [Payload.users m]⟩ ∧
      ∀ i, m i =
        if offset ≤ i ∧ i < offset + limit then (serveAll initStore rs).users i else none := by
  have hinv := inv_serveAll inv_initStore rs
  refine ⟨scan (serveAll initStore rs).users offset
    (adjustLimit (serveAll initStore rs).lastIndex offset limit), ?_, scan_adjustLimit hinv _ _⟩
  have hlq : limitQuery newWriter q.limit = (newWriter, some limit) := by
    rcases hl with ⟨hq, rfl⟩ | ⟨hq, h1, h2⟩
    · rw [hq]; rfl
    · cases hql : q.limit with
      | none => rw [hql] at hq; simp at hq
      | some tok =>
        rw [hql] at hq
        exact limitQuery_inRange _ (by simpa using hq) h1 h2
  have hoq : offsetQuery (serveAll initStore rs).lastIndex newWriter q.offset =
      (newWriter, some offset) := by
    rcases ho with ⟨hq, rfl⟩ | ⟨hq, h1, h2⟩
    · rw [hq]; rfl
    · cases hqo : q.offset with
      | none => rw [hqo] at hq; simp at hq
      | some tok =>
        rw [hqo] at hq
        exact offsetQuery_inRange _ _ (by simpa using hq) h1 h2
  unfold usersGetHandle
  rw [hlq]
  simp only [hoq]
  rfl

/-- C3, witness: after two accepted `POST`s and `DELETE /users/1`, the request
`GET /users?offset=2` (default limit 25, which the handler adjusts). -/
theorem c3_list_is_store_restricted_to_range_witness :
    ∃ m, usersGetHandle (serveAll initStore
        [Request.userPost ⟨"a", "a@x", "keep"⟩, Request.userPost ⟨"b", "b@x", ""⟩,
          Request.userDelete "1"]) ⟨none, some "2"⟩ = ⟨some 200, [Payload.users m]⟩ ∧
      ∀ i, m i =
        if 2 ≤ i ∧ i < 2 + 25 then (serveAll initStore
          [Request.userPost ⟨"a", "a@x", "keep"⟩, Request.userPost ⟨"b", "b@x", ""⟩,
            Request.userDelete "1"]).users i else none :=
  c3_list_is_store_restricted_to_range
    [Request.userPost ⟨"a", "a@x", "keep"⟩, Request.userPost ⟨"b", "b@x", ""⟩,
      Request.userDelete "1"] ⟨none, some "2"⟩ 25 2
    (Or.inl ⟨rfl, rfl⟩) (Or.inr ⟨by decide, by decide, by decide⟩)

/-- C4 (the code at the failing inputs): on the initial store, `GET /users?limit=abc`
and `GET /users?offset=abc` are answered 400 with the "is not Integer." error
followed by a user mapping in the same body, because the two branches for a
token that is not an integer do not return. -/
theorem c4_non_integer_token_error_followed_by_mapping :
    (∃ m, usersGetHandle initStore ⟨some "abc", none⟩ =
        ⟨some 400, [Payload.error ⟨400, "Limit Query is not Integer."⟩, Payload.users m]⟩) ∧
      (∃ m, usersGetHandle initStore ⟨none, some "abc"⟩ =
        ⟨some 400, [Payload.error ⟨400, "Offset Query is not Integer."⟩, Payload.users m]⟩) :=
  ⟨⟨_, rfl⟩, ⟨_, rfl⟩⟩

/-- C5: in every store, for a `limit` token that parses to the integer `lmt`
and no `offset` parameter, the list handler answers 200 with one user mapping
(the scan from offset 1) when `1 ≤ lmt ≤ 25`, and otherwise answers 400 with
the single error "Limit Query value range is from 1 to 25.". -/
theorem c5_list_limit_range (s : Store) (tok : String) (lmt : Int)
    (hp : Atoi tok = some lmt) :
    usersGetHandle s ⟨some tok, none⟩ =
      if 1 ≤ lmt ∧ lmt ≤ 25 then
        ⟨some 200, [Payload.users (scan s.users 1 (adjustLimit s.lastIndex 1 lmt))]⟩
      else
        ⟨some 400, [Payload.error ⟨400, "Limit Query value range is from 1 to 25."⟩]⟩ := by
  unfold usersGetHandle
  by_cases hr : 1 ≤ lmt ∧ lmt ≤ 25
  · rw [if_pos hr]
    simp only [limitQuery_inRange newWriter hp hr.1 hr.2, offsetQuery_default]
    rfl
  · rw [if_neg hr]
    simp only [limitQuery_outOfRange newWriter hp (by omega)]
    rfl

/-- C5, witness: `limit=0` and `limit=26` are refused, `limit=25` is served, on
the initial store. -/
theorem c5_list_limit_range_witness :
    usersGetHandle initStore ⟨some "0", none⟩ =
        ⟨some 400, [Payload.error ⟨400, "Limit Query value range is from 1 to 25."⟩]⟩ ∧
      usersGetHandle initStore ⟨some "26", none⟩ =
        ⟨some 400, [Payload.error ⟨400, "Limit Query value range is from 1 to 25."⟩]⟩ ∧
      usersGetHandle initStore ⟨some "25", none⟩ =
        ⟨some 200,
          [Payload.users (scan initStore.users 1 (adjustLimit initStore.lastIndex 1 25))]⟩ :=
  ⟨c5_list_limit_range initStore "0" 0 (by decide),
   c5_list_limit_range initStore "26" 26 (by decide),
   c5_list_limit_range initStore "25" 25 (by decide)⟩

/-- C6: in every store, for an `offset` token that parses to the integer `ofs`,
with the limit absent (25) or an integer in `1..25`, the list handler answers
200 with one user mapping when `1 ≤ ofs < lastIndex`, and otherwise answers 400
with the single error "Offset Query value range is from ~" followed by the
decimal of `lastIndex - 1`.  In particular `offset=1` is refused on the initial
store, with the bound 0. -/
theorem c6_list_offset_range (s : Store) (ql : Option String) (tok : String)
    (limit ofs : Int)
    (hl : (ql = none ∧ limit = 25) ∨ (ql.bind Atoi = some limit ∧ 1 ≤ limit ∧ limit ≤ 25))
    (hp : Atoi tok = some ofs) :
    usersGetHandle s ⟨ql, some tok⟩ =
        (if 1 ≤ ofs ∧ ofs < s.lastIndex then
          ⟨some 200, [Payload.users (scan s.users ofs (adjustLimit s.lastIndex ofs limit))]⟩
        else
          ⟨some 400,
            [Payload.error ⟨400, "Offset Query value range is from ~" ++ Itoa (s.lastIndex - 1)⟩]⟩) ∧
      usersGetHandle initStore ⟨none, some "1"⟩ =
        ⟨some 400, [Payload.error ⟨400, "Offset Query value range is from ~0"⟩]⟩ := by
  refine ⟨?_, rfl⟩
  have hlq : limitQuery newWriter ql = (newWriter, some limit) := by
    rcases hl with ⟨rfl, rfl⟩ | ⟨hq, h1, h2⟩
    · rfl
    · cases ql with
      | none => simp at hq
      | some t => exact limitQuery_inRange _ (by simpa using hq) h1 h2
  unfold usersGetHandle
  by_cases hr : 1 ≤ ofs ∧ ofs < s.lastIndex
  · rw [if_pos hr]
    simp only [hlq, offsetQuery_inRange s.lastIndex newWriter hp hr.1 hr.2]
    rfl
  · rw [if_neg hr]
    simp only [hlq, offsetQuery_outOfRange s.lastIndex newWriter hp hr]
    rfl

/-- C6, witness: after one accepted `POST`, `GET /users?limit=5&offset=1`. -/
theorem c6_list_offset_range_witness :
    usersGetHandle (serveAll initStore [Request.userPost ⟨"a", "a@x", "keep"⟩])
        ⟨some "5", some "1"⟩ =
        (if (1 : Int) ≤ 1 ∧
            1 < (serveAll initStore [Request.userPost ⟨"a", "a@x", "keep"⟩]).lastIndex then
          ⟨some 200, [Payload.users
            (scan (serveAll initStore [Request.userPost ⟨"a", "a@x", "keep"⟩]).users 1
              (adjustLimit
                (serveAll initStore [Request.userPost ⟨"a", "a@x", "keep"⟩]).lastIndex 1 5))]⟩
        else
          ⟨some 400,
            [Payload.error ⟨400, "Offset Query value range is from ~" ++
              Itoa ((serveAll initStore [Request.userPost ⟨"a", "a@x", "keep"⟩]).lastIndex - 1)⟩]⟩) ∧
      usersGetHandle initStore ⟨none, some "1"⟩ =
        ⟨some 400, [Payload.error ⟨400, "Offset Query value range is from ~0"⟩]⟩ :=
  c6_list_offset_range (serveAll initStore [Request.userPost ⟨"a", "a@x", "keep"⟩])
    (some "5") "1" 5 1 (Or.inr ⟨by decide, by decide, by decide⟩) (by decide)

/-- C7: in every store and for every body, `POST /users` answers 400 with
"Required element(Email) is null." exactly when the email is empty (whatever
the nickname), answers 400 with "Required element(NickName) is null." exactly
when the email is non-empty and the nickname is empty, and answers 201 with
the record exactly when both are non-empty. -/
theorem c7_create_required_fields (s : Store) (user : User) :
    ((userPostHandle s user).2 =
        ⟨some 400, [Payload.error ⟨400, "Required element(Email) is null."⟩]⟩ ↔
      user.Email = "") ∧
    ((userPostHandle s user).2 =
        ⟨some 400, [Payload.error ⟨400, "Required element(NickName) is null."⟩]⟩ ↔
      (user.Email ≠ "" ∧ user.NickName = "")) ∧
    ((userPostHandle s user).2 = ⟨some 201, [Payload.user user]⟩ ↔
      (user.Email ≠ "" ∧ user.NickName ≠ "")) := by
  unfold userPostHandle
  by_cases he : user.Email = ""
  · simp [he, newWriter, ResponseWriter.WriteHeader, ResponseWriter.Encode]
  · by_cases hn : user.NickName = ""
    · simp [he, hn, newWriter, ResponseWriter.WriteHeader, ResponseWriter.Encode]
    · simp [he, hn, newWriter, ResponseWriter.WriteHeader, ResponseWriter.Encode]

/-- C8: in every store, `POST /users` with a body whose email and nickname are
non-empty answers 201 with the body's record; afterwards `users` holds that
record (all three fields as given) at the old `lastIndex`, every other key is
as before, and `lastIndex` is one more.  In a store that satisfies the store
invariant the old `lastIndex` had no record, so the entry is a new one. -/
theorem c8_create_stores_at_lastIndex (s : Store) (user : User)
    (he : user.Email ≠ "") (hn : user.NickName ≠ "") :
    (userPostHandle s user).2 = ⟨some 201, [Payload.user user]⟩ ∧
      (userPostHandle s user).1.users s.lastIndex = some user ∧
      (∀ k, k ≠ s.lastIndex → (userPostHandle s user).1.users k = s.users k) ∧
      (userPostHandle s user).1.lastIndex = s.lastIndex + 1 ∧
      (s.Inv → s.users s.lastIndex = none) := by
  unfold userPostHandle
  rw [if_neg he, if_neg hn]
  refine ⟨rfl, by simp [setKey], ?_, rfl, ?_⟩
  · intro k hk
    simp [setKey, hk]
  · intro hinv
    cases hu : s.users s.lastIndex with
    | none => rfl
    | some u =>
      have := (hinv.2 _ u hu).2
      omega

/-- C8, witness: the first `POST` on the initial store, with an empty `Etc`. -/
theorem c8_create_stores_at_lastIndex_witness :
    (userPostHandle initStore ⟨"n1", "e1@x.com", ""⟩).2 =
        ⟨some 201, [Payload.user ⟨"n1", "e1@x.com", ""⟩]⟩ ∧
      (userPostHandle initStore ⟨"n1", "e1@x.com", ""⟩).1.users initStore.lastIndex =
        some ⟨"n1", "e1@x.com", ""⟩ ∧
      (∀ k, k ≠ initStore.lastIndex →
        (userPostHandle initStore ⟨"n1", "e1@x.com", ""⟩).1.users k = initStore.users k) ∧
      (userPostHandle initStore ⟨"n1", "e1@x.com", ""⟩).1.lastIndex =
        initStore.lastIndex + 1 ∧
      (initStore.Inv → initStore.users initStore.lastIndex = none) :=
  c8_create_stores_at_lastIndex initStore ⟨"n1", "e1@x.com", ""⟩ (by decide) (by decide)

/-- C9: for each of the handlers of `GET`, `PUT`, `DELETE` and `PATCH` on
`/users/:idx`, in every store and for every body: when the token `idx` does not
parse as an integer the answer is 400 with the single error whose message is
the token followed by "(Index) is not Integer."; when it parses to an integer
that has no record the answer is 404 with the single error whose message is the
token followed by "(Index) is not Found." (for `PUT` and `PATCH` whatever the
body is). -/
theorem c9_index_not_integer_or_not_found (s : Store) (idx : String) (user : User) :
    (Atoi idx = none →
      userGetHandle s idx =
          ⟨some 400, [Payload.error ⟨400, idx ++ "(Index) is not Integer."⟩]⟩ ∧
        (userPutHandle s idx user).2 =
          ⟨some 400, [Payload.error ⟨400, idx ++ "(Index) is not Integer."⟩]⟩ ∧
        (userDeleteHandle s idx).2 =
          ⟨some 400, [Payload.error ⟨400, idx ++ "(Index) is not Integer."⟩]⟩ ∧
        (userPatchHandle s idx user).2 =
          ⟨some 400, [Payload.error ⟨400, idx ++ "(Index) is not Integer."⟩]⟩) ∧
    (∀ index, Atoi idx = some index → s.users index = none →
      userGetHandle s idx =
          ⟨some 404, [Payload.error ⟨404, idx ++ "(Index) is not Found."⟩]⟩ ∧
        (userPutHandle s idx user).2 =
          ⟨some 404, [Payload.error ⟨404, idx ++ "(Index) is not Found."⟩]⟩ ∧
        (userDeleteHandle s idx).2 =
          ⟨some 404, [Payload.error ⟨404, idx ++ "(Index) is not Found."⟩]⟩ ∧
        (userPatchHandle s idx user).2 =
          ⟨some 404, [Payload.error ⟨404, idx ++ "(Index) is not Found."⟩]⟩) := by
  constructor
  · intro hp
    unfold userGetHandle userPutHandle userDeleteHandle userPatchHandle
    simp only [hp]
    exact ⟨rfl, rfl, rfl, rfl⟩
  · intro index hp hu
    unfold userGetHandle userPutHandle userDeleteHandle userPatchHandle
    simp only [hp, hu]
    exact ⟨rfl, rfl, rfl, rfl⟩

/-- C9, witness: the tokens `x1` (not an integer) and `7` (no record) on the
initial store, with an empty body. -/
theorem c9_index_not_integer_or_not_found_witness :
    (userGetHandle initStore "x1" =
          ⟨some 400, [Payload.error ⟨400, "x1(Index) is not Integer."⟩]⟩ ∧
        (userPutHandle initStore "x1" ⟨"", "", ""⟩).2 =
          ⟨some 400, [Payload.error ⟨400, "x1(Index) is not Integer."⟩]⟩ ∧
        (userDeleteHandle initStore "x1").2 =
          ⟨some 400, [Payload.error ⟨400, "x1(Index) is not Integer."⟩]⟩ ∧
        (userPatchHandle initStore "x1" ⟨"", "", ""⟩).2 =
          ⟨some 400, [Payload.error ⟨400, "x1(Index) is not Integer."⟩]⟩) ∧
      (userGetHandle initStore "7" =
          ⟨some 404, [Payload.error ⟨404, "7(Index) is not Found."⟩]⟩ ∧
        (userPutHandle initStore "7" ⟨"", "", ""⟩).2 =
          ⟨some 404, [Payload.error ⟨404, "7(Index) is not Found."⟩]⟩ ∧
        (userDeleteHandle initStore "7").2 =
          ⟨some 404, [Payload.error ⟨404, "7(Index) is not Found."⟩]⟩ ∧
        (userPatchHandle initStore "7" ⟨"", "", ""⟩).2 =
          ⟨some 404, [Payload.error ⟨404, "7(Index) is not Found."⟩]⟩) :=
  ⟨(c9_index_not_integer_or_not_found initStore "x1" ⟨"", "", ""⟩).1 (by decide),
   (c9_index_not_integer_or_not_found initStore "7" ⟨"", "", ""⟩).2 7 (by decide) (by decide)⟩

/-- C10: in every store with a record at the key that the token `idx` parses
to, `PUT /users/:idx` with a body whose email and nickname are non-empty
answers 200 with the body's record, and afterwards the record at that key is
the body in all three fields; a field left empty in the body (`Etc`) is empty
in the stored record whatever it held before. -/
theorem c10_replace_overwrites_record (s : Store) (idx : String) (index : Int)
    (r user : User) (hp : Atoi idx = some index) (hr : s.users index = some r)
    (he : user.Email ≠ "") (hn : user.NickName ≠ "") :
    (userPutHandle s idx user).2 = ⟨some 200, [Payload.user user]⟩ ∧
      (userPutHandle s idx user).1.users index = some user ∧
      (user.Etc = "" →
        ((userPutHandle s idx user).1.users index).map User.Etc = some "") := by
  unfold userPutHandle
  simp only [hp, hr, if_neg he, if_neg hn]
  refine ⟨rfl, by simp [setKey], ?_⟩
  intro hetc
  simp [setKey, hetc]

/-- C10, witness: create `{nickname a, email a@x, Etc keep}`, then replace key 1
with `{nickname b, email b@x}`: the stored `Etc` becomes empty. -/
theorem c10_replace_overwrites_record_witness :
    (userPutHandle (serveAll initStore [Request.userPost ⟨"a", "a@x", "keep"⟩]) "1"
        ⟨"b", "b@x", ""⟩).2 = ⟨some 200, [Payload.user ⟨"b", "b@x", ""⟩]⟩ ∧
      (userPutHandle (serveAll initStore [Request.userPost ⟨"a", "a@x", "keep"⟩]) "1"
        ⟨"b", "b@x", ""⟩).1.users 1 = some ⟨"b", "b@x", ""⟩ ∧
      ((⟨"b", "b@x", ""⟩ : User).Etc = "" →
        ((userPutHandle (serveAll initStore [Request.userPost ⟨"a", "a@x", "keep"⟩]) "1"
          ⟨"b", "b@x", ""⟩).1.users 1).map User.Etc = some "") :=
  c10_replace_overwrites_record (serveAll initStore [Request.userPost ⟨"a", "a@x", "keep"⟩])
    "1" 1 ⟨"a", "a@x", "keep"⟩ ⟨"b", "b@x", ""⟩ (by decide) (by decide) (by decide) (by decide)

/-- C11: in every store with a record at the key that the token `idx` parses
to, `PUT /users/:idx` with a body whose email is empty answers 400 with
"Required element(Email) is null.", and with a body whose email is non-empty
and nickname is empty answers 400 with "Required element(NickName) is null."
(the two checks of `POST /users`, in the same order); in both cases the store,
and so the record at that key, is as before. -/
theorem c11_replace_required_fields (s : Store) (idx : String) (index : Int)
    (r user : User) (hp : Atoi idx = some index) (hr : s.users index = some r) :
    (user.Email = "" →
      (userPutHandle s idx user).2 =
          ⟨some 400, [Payload.error ⟨400, "Required element(Email) is null."⟩]⟩ ∧
        (userPostHandle s user).2 = (userPutHandle s idx user).2 ∧
        (userPutHandle s idx user).1 = s ∧
        (userPutHandle s idx user).1.users index = some r) ∧
    (user.Email ≠ "" → user.NickName = "" →
      (userPutHandle s idx user).2 =
          ⟨some 400, [Payload.error ⟨400, "Required element(NickName) is null."⟩]⟩ ∧
        (userPostHandle s user).2 = (userPutHandle s idx user).2 ∧
        (userPutHandle s idx user).1 = s ∧
        (userPutHandle s idx user).1.users index = some r) := by
  unfold userPutHandle userPostHandle
  simp only [hp, hr]
  constructor
  · intro he
    rw [if_pos he, if_pos he]
    exact ⟨rfl, rfl, rfl, hr⟩
  · intro he hn
    rw [if_neg he, if_pos hn, if_neg he, if_pos hn]
    exact ⟨rfl, rfl, rfl, hr⟩

/-- C11, witness: after `POST {nickname a, email a@x, Etc keep}`, `PUT /users/1`
with the bodies `{nickname b}` and `{email b@x}`. -/
theorem c11_replace_required_fields_witness :
    ((userPutHandle (serveAll initStore [Request.userPost ⟨"a", "a@x", "keep"⟩]) "1"
          ⟨"b", "", ""⟩).2 =
        ⟨some 400, [Payload.error ⟨400, "Required element(Email) is null."⟩]⟩ ∧
      (userPutHandle (serveAll initStore [Request.userPost ⟨"a", "a@x", "keep"⟩]) "1"
          ⟨"b", "", ""⟩).1.users 1 = some ⟨"a", "a@x", "keep"⟩) ∧
    ((userPutHandle (serveAll initStore [Request.userPost ⟨"a", "a@x", "keep"⟩]) "1"
          ⟨"", "b@x", ""⟩).2 =
        ⟨some 400, [Payload.error ⟨400, "Required element(NickName) is null."⟩]⟩ ∧
      (userPutHandle (serveAll initStore [Request.userPost ⟨"a", "a@x", "keep"⟩]) "1"
          ⟨"", "b@x", ""⟩).1.users 1 = some ⟨"a", "a@x", "keep"⟩) := by
  have h1 := (c11_replace_required_fields
    (serveAll initStore [Request.userPost ⟨"a", "a@x", "keep"⟩]) "1" 1
    ⟨"a", "a@x", "keep"⟩ ⟨"b", "", ""⟩ (by decide) (by decide)).1 (by decide)
  have h2 := (c11_replace_required_fields
    (serveAll initStore [Request.userPost ⟨"a", "a@x", "keep"⟩]) "1" 1
    ⟨"a", "a@x", "keep"⟩ ⟨"", "b@x", ""⟩ (by decide) (by decide)).2 (by decide) (by decide)
  exact ⟨⟨h1.1, h1.2.2.2⟩, ⟨h2.1, h2.2.2.2⟩⟩

/-- C12: in every store with a record `r` at the key that the token `idx`
parses to, `PATCH /users/:idx` with a body that has some non-empty field
answers 200 with the updated record, and the store then holds at that key the
record `r` with each of `Email`, `NickName`, `Etc` replaced by the body's value
exactly when that value is non-empty. -/
theorem c12_patch_merges_fields (s : Store) (idx : String) (index : Int)
    (r user : User) (hp : Atoi idx = some index) (hr : s.users index = some r)
    (hne : user.Email ≠ "" ∨ user.NickName ≠ "" ∨ user.Etc ≠ "") :
    (userPatchHandle s idx user).2 =
        ⟨some 200, [Payload.user
          ⟨if user.NickName ≠ "" then user.NickName else r.NickName,
           if user.Email ≠ "" then user.Email else r.Email,
           if user.Etc ≠ "" then user.Etc else r.Etc⟩]⟩ ∧
      (userPatchHandle s idx user).1.users index =
        some ⟨if user.NickName ≠ "" then user.NickName else r.NickName,
              if user.Email ≠ "" then user.Email else r.Email,
              if user.Etc ≠ "" then user.Etc else r.Etc⟩ := by
  unfold userPatchHandle
  simp only [hp, hr, patchFields_eq, decide_eq_true hne]
  exact ⟨rfl, by simp [setKey]⟩

/-- C12, witness: after `POST {nickname a, email a@x, Etc keep}`, the request
`PATCH /users/1` with `{nickname c}` changes the nickname and leaves the email
and `Etc` as they were. -/
theorem c12_patch_merges_fields_witness :
    (userPatchHandle (serveAll initStore [Request.userPost ⟨"a", "a@x", "keep"⟩]) "1"
        ⟨"c", "", ""⟩).2 = ⟨some 200, [Payload.user ⟨"c", "a@x", "keep"⟩]⟩ ∧
      (userPatchHandle (serveAll initStore [Request.userPost ⟨"a", "a@x", "keep"⟩]) "1"
        ⟨"c", "", ""⟩).1.users 1 = some ⟨"c", "a@x", "keep"⟩ :=
  c12_patch_merges_fields (serveAll initStore [Request.userPost ⟨"a", "a@x", "keep"⟩])
    "1" 1 ⟨"a", "a@x", "keep"⟩ ⟨"c", "", ""⟩ (by decide) (by decide) (by decide)

/-- C13: in every store with a record `r` at the key that the token `idx`
parses to, `PATCH /users/:idx` with a body whose email, nickname and `Etc` are
all empty answers 400 with "All element is null.", and the store (the record
at that key, every other record, and `lastIndex`) is as before. -/
theorem c13_patch_empty_body (s : Store) (idx : String) (index : Int) (r user : User)
    (hp : Atoi idx = some index) (hr : s.users index = some r)
    (he : user.Email = "") (hn : user.NickName = "") (ht : user.Etc = "") :
    (userPatchHandle s idx user).2 =
        ⟨some 400, [Payload.error ⟨400, "All element is null."⟩]⟩ ∧
      (userPatchHandle s idx user).1.users index = some r ∧
      (userPatchHandle s idx user).1 = s := by
  have hpf : patchFields r user = (r, false) := by
    rw [patchFields_eq]
    simp [he, hn, ht]
  have key : userPatchHandle s idx user =
      (s, ⟨some 400, [Payload.error ⟨400, "All element is null."⟩]⟩) := by
    unfold userPatchHandle
    simp only [hp, hr, hpf, setKey_self hr]
    rfl
  rw [key]
  exact ⟨rfl, hr, rfl⟩

/-- C13, witness: after `POST {nickname a, email a@x, Etc keep}`, the request
`PATCH /users/1` with an empty body. -/
theorem c13_patch_empty_body_witness :
    (userPatchHandle (serveAll initStore [Request.userPost ⟨"a", "a@x", "keep"⟩]) "1"
        ⟨"", "", ""⟩).2 = ⟨some 400, [Payload.error ⟨400, "All element is null."⟩]⟩ ∧
      (userPatchHandle (serveAll initStore [Request.userPost ⟨"a", "a@x", "keep"⟩]) "1"
        ⟨"", "", ""⟩).1.users 1 = some ⟨"a", "a@x", "keep"⟩ ∧
      (userPatchHandle (serveAll initStore [Request.userPost ⟨"a", "a@x", "keep"⟩]) "1"
        ⟨"", "", ""⟩).1 = serveAll initStore [Request.userPost ⟨"a", "a@x", "keep"⟩] :=
  c13_patch_empty_body (serveAll initStore [Request.userPost ⟨"a", "a@x", "keep"⟩])
    "1" 1 ⟨"a", "a@x", "keep"⟩ ⟨"", "", ""⟩ (by decide) (by decide) rfl rfl rfl

/-- C14: in every store with a record `r` at the key that the token `idx`
parses to, `DELETE /users/:idx` answers 200 with exactly `r` as it was before
the call, `users` afterwards has no entry at that key, and `GET /users/:idx`
with the same token right afterwards answers 404 (not found). -/
theorem c14_delete_returns_record (s : Store) (idx : String) (index : Int) (r : User)
    (hp : Atoi idx = some index) (hr : s.users index = some r) :
    (userDeleteHandle s idx).2 = ⟨some 200, [Payload.user r]⟩ ∧
      (userDeleteHandle s idx).1.users index = none ∧
      userGetHandle (userDeleteHandle s idx).1 idx =
        ⟨some 404, [Payload.error ⟨404, idx ++ "(Index) is not Found."⟩]⟩ := by
  have hd : (userDeleteHandle s idx).1.users index = none := by
    unfold userDeleteHandle
    simp [hp, hr, delKey]
  refine ⟨?_, hd, ?_⟩
  · unfold userDeleteHandle
    simp only [hp, hr]
    rfl
  · unfold userGetHandle
    simp only [hp, hd]
    rfl

/-- C14, witness: after `POST {nickname a, email a@x, Etc keep}`, the request
`DELETE /users/1`. -/
theorem c14_delete_returns_record_witness :
    (userDeleteHandle (serveAll initStore [Request.userPost ⟨"a", "a@x", "keep"⟩]) "1").2 =
        ⟨some 200, [Payload.user ⟨"a", "a@x", "keep"⟩]⟩ ∧
      (userDeleteHandle
        (serveAll initStore [Request.userPost ⟨"a", "a@x", "keep"⟩]) "1").1.users 1 = none ∧
      userGetHandle (userDeleteHandle
        (serveAll initStore [Request.userPost ⟨"a", "a@x", "keep"⟩]) "1").1 "1" =
        ⟨some 404, [Payload.error ⟨404, "1" ++ "(Index) is not Found."⟩]⟩ :=
  c14_delete_returns_record (serveAll initStore [Request.userPost ⟨"a", "a@x", "keep"⟩])
    "1" 1 ⟨"a", "a@x", "keep"⟩ (by decide) (by decide)

/-- C15: round trip.  In every store reached from the initial one, for a body
with non-empty email and nickname and a token `tok` that `Atoi` reads as the
current `lastIndex`: `POST /users` answers 201 with the record and stores it
under that key, which had no record; `GET /users/tok` then answers 200 with the
same record; `DELETE /users/tok` answers 200 with the same record; a further
`GET /users/tok` answers 404 with `errorCode` 404 and the token followed by
"(Index) is not Found.".  The decimal token `Itoa lastIndex` is such a token
while `lastIndex` is below `2^63`.  On the initial store with the body
`{nickname n1, email e1@x.com}` the record has an empty `Etc`, the key is 1,
its token is "1" and the last message is "1(Index) is not Found.". -/
theorem c15_create_get_delete_get (rs : List Request) (user : User) (tok : String)
    (he : user.Email ≠ "") (hn : user.NickName ≠ "")
    (ht : Atoi tok = some (serveAll initStore rs).lastIndex) :
    ((userPostHandle (serveAll initStore rs) user).2 = ⟨some 201, [Payload.user user]⟩ ∧
      (serveAll initStore rs).users (serveAll initStore rs).lastIndex = none ∧
      (userPostHandle (serveAll initStore rs) user).1.users (serveAll initStore rs).lastIndex =
        some user ∧
      userGetHandle (userPostHandle (serveAll initStore rs) user).1 tok =
        ⟨some 200, [Payload.user user]⟩ ∧
      (userDeleteHandle (userPostHandle (serveAll initStore rs) user).1 tok).2 =
        ⟨some 200, [Payload.user user]⟩ ∧
      userGetHandle (userDeleteHandle (userPostHandle (serveAll initStore rs) user).1 tok).1 tok =
        ⟨some 404, [Payload.error ⟨404, tok ++ "(Index) is not Found."⟩]⟩ ∧
      ((serveAll initStore rs).lastIndex < 2 ^ 63 →
        Atoi (Itoa (serveAll initStore rs).lastIndex) =
          some (serveAll initStore rs).lastIndex)) ∧
    ((userPostHandle initStore ⟨"n1", "e1@x.com", ""⟩).2 =
        ⟨some 201, [Payload.user ⟨"n1", "e1@x.com", ""⟩]⟩ ∧
      initStore.lastIndex = 1 ∧ Itoa 1 = "1" ∧
      (userPostHandle initStore ⟨"n1", "e1@x.com", ""⟩).1.users 1 =
        some ⟨"n1", "e1@x.com", ""⟩ ∧
      userGetHandle (userPostHandle initStore ⟨"n1", "e1@x.com", ""⟩).1 "1" =
        ⟨some 200, [Payload.user ⟨"n1", "e1@x.com", ""⟩]⟩ ∧
      (userDeleteHandle (userPostHandle initStore ⟨"n1", "e1@x.com", ""⟩).1 "1").2 =
        ⟨some 200, [Payload.user ⟨"n1", "e1@x.com", ""⟩]⟩ ∧
      userGetHandle
          (userDeleteHandle (userPostHandle initStore ⟨"n1", "e1@x.com", ""⟩).1 "1").1 "1" =
        ⟨some 404, [Payload.error ⟨404, "1(Index) is not Found."⟩]⟩) := by
  have hinv := inv_serveAll inv_initStore rs
  have hfresh : (serveAll initStore rs).users (serveAll initStore rs).lastIndex = none := by
    cases hu : (serveAll initStore rs).users (serveAll initStore rs).lastIndex with
    | none => rfl
    | some u =>
      have := (hinv.2 _ u hu).2
      omega
  have hpost : userPostHandle (serveAll initStore rs) user =
      (⟨setKey (serveAll initStore rs).users (serveAll initStore rs).lastIndex user,
        (serveAll initStore rs).lastIndex + 1⟩, ⟨some 201, [Payload.user user]⟩) := by
    unfold userPostHandle
    rw [if_neg he, if_neg hn]
    rfl
  have hstored : setKey (serveAll initStore rs).users (serveAll initStore rs).lastIndex user
      (serveAll initStore rs).lastIndex = some user := by
    simp [setKey]
  have hdel : userDeleteHandle
      ⟨setKey (serveAll initStore rs).users (serveAll initStore rs).lastIndex user,
        (serveAll initStore rs).lastIndex + 1⟩ tok =
      (⟨delKey (setKey (serveAll initStore rs).users (serveAll initStore rs).lastIndex user)
          (serveAll initStore rs).lastIndex, (serveAll initStore rs).lastIndex + 1⟩,
        ⟨some 200, [Payload.user user]⟩) := by
    unfold userDeleteHandle
    simp only [ht, hstored]
    rfl
  refine ⟨⟨?_, hfresh, ?_, ?_, ?_, ?_, ?_⟩, ?_⟩
  · rw [hpost]
  · rw [hpost]
    exact hstored
  · rw [hpost]
    unfold userGetHandle
    simp only [ht, hstored]
    rfl
  · rw [hpost, hdel]
  · rw [hpost, hdel]
    unfold userGetHandle
    have hgone : delKey
        (setKey (serveAll initStore rs).users (serveAll initStore rs).lastIndex user)
        (serveAll initStore rs).lastIndex (serveAll initStore rs).lastIndex = none := by
      simp [delKey]
    simp only [ht, hgone]
    rfl
  · intro hlt
    exact Atoi_Itoa (by have := hinv.1; omega) hlt
  · exact ⟨rfl, rfl, by decide, by decide, rfl, rfl, rfl⟩

/-- C15, witness: the round trip for the second record, after one accepted
`POST`, with the token "2". -/
theorem c15_create_get_delete_get_witness :
    (userPostHandle (serveAll initStore [Request.userPost ⟨"a", "a@x", "keep"⟩])
        ⟨"n1", "e1@x.com", ""⟩).2 = ⟨some 201, [Payload.user ⟨"n1", "e1@x.com", ""⟩]⟩ ∧
      userGetHandle (userPostHandle (serveAll initStore [Request.userPost ⟨"a", "a@x", "keep"⟩])
        ⟨"n1", "e1@x.com", ""⟩).1 "2" = ⟨some 200, [Payload.user ⟨"n1", "e1@x.com", ""⟩]⟩ ∧
      userGetHandle (userDeleteHandle
        (userPostHandle (serveAll initStore [Request.userPost ⟨"a", "a@x", "keep"⟩])
          ⟨"n1", "e1@x.com", ""⟩).1 "2").1 "2" =
        ⟨some 404, [Payload.error ⟨404, "2" ++ "(Index) is not Found."⟩]⟩ := by
  have h := (c15_create_get_delete_get [Request.userPost ⟨"a", "a@x", "keep"⟩]
    ⟨"n1", "e1@x.com", ""⟩ "2" (by decide) (by decide) (by decide)).1
  exact ⟨h.1, h.2.2.2.1, h.2.2.2.2.2.1⟩

/-- C16: in every store reached from the initial one by any sequence of the six
requests, every stored record has a non-empty email and a non-empty nickname. -/
theorem c16_stored_records_have_required_fields (rs : List Request) (k : Int) (u : User)
    (h : (serveAll initStore rs).users k = some u) : u.Email ≠ "" ∧ u.NickName ≠ "" :=
  required_serveAll required_initStore rs k u h

/-- C16, witness: the record at key 1 after a `POST`, a `PATCH` of the nickname
and a `PATCH` with an empty body. -/
theorem c16_stored_records_have_required_fields_witness :
    (serveAll initStore
        [Request.userPost ⟨"a", "a@x", "keep"⟩, Request.userPatch "1" ⟨"c", "", ""⟩,
          Request.userPatch "1" ⟨"", "", ""⟩]).users 1 = some ⟨"c", "a@x", "keep"⟩ ∧
      (⟨"c", "a@x", "keep"⟩ : User).Email ≠ "" ∧
      (⟨"c", "a@x", "keep"⟩ : User).NickName ≠ "" :=
  ⟨by decide,
   c16_stored_records_have_required_fields
    [Request.userPost ⟨"a", "a@x", "keep"⟩, Request.userPatch "1" ⟨"c", "", ""⟩,
      Request.userPatch "1" ⟨"", "", ""⟩] 1 ⟨"c", "a@x", "keep"⟩ (by decide)⟩

/-- C17: with neither `limit` nor `offset` supplied, the list handler answers
200 with one user mapping in every store (the default offset 1 does not go
through the test against `lastIndex`), and on the initial store that mapping
has no entry. -/
theorem c17_list_defaults (s : Store) :
    usersGetHandle s ⟨none, none⟩ =
        ⟨some 200, [Payload.users (scan s.users 1 (adjustLimit s.lastIndex 1 25))]⟩ ∧
      ∃ m, usersGetHandle initStore ⟨none, none⟩ = ⟨some 200, [Payload.users m]⟩ ∧
        ∀ i, m i = none := by
  refine ⟨rfl, scan initStore.users 1 (adjustLimit initStore.lastIndex 1 25), rfl, ?_⟩
  intro i
  rw [scan_apply]
  split <;> rfl

/-- C18 (the code at the failing input): after one accepted `POST`
(`lastIndex = 2`), for `GET /users?limit=25&offset=1` the adjustment of lines
86-88 turns the limit 25 into 49, so the loop scans the keys 1 to 49.  In
general, whenever the test of line 86 holds the adjusted limit is larger than
the requested one, and whenever the requested range holds a key at or above
`lastIndex` so does the adjusted range. -/
theorem c18_limit_adjustment_enlarges :
    adjustLimit (serveAll initStore [Request.userPost ⟨"a", "a@x", "keep"⟩]).lastIndex 1 25 = 49 ∧
      usersGetHandle (serveAll initStore [Request.userPost ⟨"a", "a@x", "keep"⟩])
          ⟨some "25", some "1"⟩ =
        ⟨some 200, [Payload.users
          (scan (serveAll initStore [Request.userPost ⟨"a", "a@x", "keep"⟩]).users 1 49)]⟩ ∧
      (∀ lastIndex offset limit : Int, offset + limit - 1 > lastIndex →
        limit < adjustLimit lastIndex offset limit) ∧
      (∀ lastIndex offset limit : Int, lastIndex < offset + limit →
        limit ≤ adjustLimit lastIndex offset limit ∧
          lastIndex < offset + adjustLimit lastIndex offset limit) := by
  refine ⟨by decide, rfl, ?_, ?_⟩
  · intro lastIndex offset limit h
    unfold adjustLimit
    rw [if_pos h]
    omega
  · intro lastIndex offset limit h
    unfold adjustLimit
    split <;> omega

/-- C19: in every store, a request to any of the six routes that is answered
with status 400 or 404 leaves the store, `users` and `lastIndex`, exactly as
it was before the request. -/
theorem c19_error_leaves_store_unchanged (s : Store) (r : Request)
    (h : (serve s r).2.status = some 400 ∨ (serve s r).2.status = some 404) :
    (serve s r).1 = s := by
  cases r with
  | usersGet q => rfl
  | userPost user => exact userPostHandle_error s user h
  | userGet idx => rfl
  | userPut idx user => exact userPutHandle_error s idx user h
  | userDelete idx => exact userDeleteHandle_error s idx h
  | userPatch idx user => exact userPatchHandle_error s idx user h

/-- C19, witness: after one accepted `POST`, a `PATCH /users/1` with an empty
body is answered 400 and the store is as before. -/
theorem c19_error_leaves_store_unchanged_witness :
    ((serve (serveAll initStore [Request.userPost ⟨"a", "a@x", "keep"⟩])
          (Request.userPatch "1" ⟨"", "", ""⟩)).2.status = some 400 ∨
        (serve (serveAll initStore [Request.userPost ⟨"a", "a@x", "keep"⟩])
          (Request.userPatch "1" ⟨"", "", ""⟩)).2.status = some 404) ∧
      (serve (serveAll initStore [Request.userPost ⟨"a", "a@x", "keep"⟩])
          (Request.userPatch "1" ⟨"", "", ""⟩)).1 =
        serveAll initStore [Request.userPost ⟨"a", "a@x", "keep"⟩] :=
  ⟨Or.inl (by decide),
   c19_error_leaves_store_unchanged (serveAll initStore [Request.userPost ⟨"a", "a@x", "keep"⟩])
    (Request.userPatch "1" ⟨"", "", ""⟩) (Or.inl (by decide))⟩

/-- C20: frame.  The handlers of `GET /users` and `GET /users/:idx` leave the
store as it was.  `PUT`, `PATCH` and `DELETE` on `/users/:idx` leave `lastIndex`
as it was and leave the record of every key other than the one the token
parses to as it was.  `PUT` and `PATCH` keep the set of keys.  A request
changes whether a key has a record only when it is a `POST` and the key is the
old `lastIndex`, which then has a record, or a `DELETE` whose token parses to
the key, which then has none. -/
theorem c20_frame :
    (∀ (s : Store) (q : Query), (serve s (Request.usersGet q)).1 = s) ∧
    (∀ (s : Store) (idx : String), (serve s (Request.userGet idx)).1 = s) ∧
    (∀ (s : Store) (idx : String) (user : User),
      (userPutHandle s idx user).1.lastIndex = s.lastIndex ∧
      (userPatchHandle s idx user).1.lastIndex = s.lastIndex ∧
      (userDeleteHandle s idx).1.lastIndex = s.lastIndex) ∧
    (∀ (s : Store) (idx : String) (user : User) (k : Int), Atoi idx ≠ some k →
      (userPutHandle s idx user).1.users k = s.users k ∧
      (userPatchHandle s idx user).1.users k = s.users k ∧
      (userDeleteHandle s idx).1.users k = s.users k) ∧
    (∀ (s : Store) (idx : String) (user : User) (k : Int),
      ((userPutHandle s idx user).1.users k).isSome = (s.users k).isSome ∧
      ((userPatchHandle s idx user).1.users k).isSome = (s.users k).isSome) ∧
    (∀ (s : Store) (r : Request) (k : Int),
      ((serve s r).1.users k).isSome ≠ (s.users k).isSome →
        (∃ user, r = Request.userPost user ∧ k = s.lastIndex ∧
          (serve s r).1.users k = some user) ∨
        (∃ idx, r = Request.userDelete idx ∧ Atoi idx = some k ∧
          (serve s r).1.users k = none)) := by
  refine ⟨fun _ _ => rfl, fun _ _ => rfl, ?_, ?_, ?_, ?_⟩
  · intro s idx user
    exact ⟨userPutHandle_lastIndex s idx user, userPatchHandle_lastIndex s idx user,
      userDeleteHandle_lastIndex s idx⟩
  · intro s idx user k hk
    exact ⟨userPutHandle_users_other s idx user k hk, userPatchHandle_users_other s idx user k hk,
      userDeleteHandle_users_other s idx k hk⟩
  · intro s idx user k
    exact ⟨userPutHandle_isSome s idx user k, userPatchHandle_isSome s idx user k⟩
  · intro s r k hne
    cases r with
    | usersGet q => exact absurd rfl hne
    | userGet idx => exact absurd rfl hne
    | userPost user =>
      rcases userPostHandle_users s user k with h | ⟨hk, hu⟩
      · exact absurd (congrArg Option.isSome h) hne
      · exact Or.inl ⟨user, rfl, hk, hu⟩
    | userPut idx user => exact absurd (userPutHandle_isSome s idx user k) hne
    | userPatch idx user => exact absurd (userPatchHandle_isSome s idx user k) hne
    | userDelete idx =>
      rcases userDeleteHandle_users s idx k with h | ⟨hk, hu⟩
      · exact absurd (congrArg Option.isSome h) hne
      · exact Or.inr ⟨idx, rfl, hk, hu⟩

/-- C20, witness: after two accepted `POST`s, `PUT /users/1`, `PATCH /users/1`
and `DELETE /users/1` leave the record at key 2 as it was, and `DELETE /users/1`
is the request that removes key 1. -/
theorem c20_frame_witness :
    ((userPutHandle (serveAll initStore
          [Request.userPost ⟨"a", "a@x", "keep"⟩, Request.userPost ⟨"b", "b@x", ""⟩])
          "1" ⟨"c", "c@x", ""⟩).1.users 2 = some ⟨"b", "b@x", ""⟩ ∧
      (userPatchHandle (serveAll initStore
          [Request.userPost ⟨"a", "a@x", "keep"⟩, Request.userPost ⟨"b", "b@x", ""⟩])
          "1" ⟨"c", "c@x", ""⟩).1.users 2 = some ⟨"b", "b@x", ""⟩ ∧
      (userDeleteHandle (serveAll initStore
          [Request.userPost ⟨"a", "a@x", "keep"⟩, Request.userPost ⟨"b", "b@x", ""⟩])
          "1").1.users 2 = some ⟨"b", "b@x", ""⟩) ∧
    ((∃ user, Request.userDelete "1" = Request.userPost user ∧
        (1 : Int) = (serveAll initStore
          [Request.userPost ⟨"a", "a@x", "keep"⟩, Request.userPost ⟨"b", "b@x", ""⟩]).lastIndex ∧
        (serve (serveAll initStore
          [Request.userPost ⟨"a", "a@x", "keep"⟩, Request.userPost ⟨"b", "b@x", ""⟩])
          (Request.userDelete "1")).1.users 1 = some user) ∨
      (∃ idx, Request.userDelete "1" = Request.userDelete idx ∧ Atoi idx = some 1 ∧
        (serve (serveAll initStore
          [Request.userPost ⟨"a", "a@x", "keep"⟩, Request.userPost ⟨"b", "b@x", ""⟩])
          (Request.userDelete "1")).1.users 1 = none)) :=
  ⟨c20_frame.2.2.2.1 (serveAll initStore
      [Request.userPost ⟨"a", "a@x", "keep"⟩, Request.userPost ⟨"b", "b@x", ""⟩])
      "1" ⟨"c", "c@x", ""⟩ 2 (by decide),
   c20_frame.2.2.2.2.2 (serveAll initStore
      [Request.userPost ⟨"a", "a@x", "keep"⟩, Request.userPost ⟨"b", "b@x", ""⟩])
      (Request.userDelete "1") 1 (by decide)⟩

end UserStore
